import Mathlib

/-!
# Verification of the `version-compare` library

A shallow embedding of the library's two source files, `comp_op.rs` and
`version.rs`, together with proofs about the parsing and comparison
algorithms.

Embedding conventions:
* Rust `i32` values are embedded as `Int`; the bounded-width behaviour of
  `str::parse::<i32>` is made explicit in `parseI32` (values outside
  `[-2^31, 2^31 - 1]` are a parse failure).  The library never performs
  arithmetic on part values, only comparisons, so `Int` is faithful on the
  representable range.
* Rust iterators over the part vectors are embedded as plain lists that are
  consumed from the front.
* The `panic!()` fall-through branch of `Version::compare_to` is embedded as
  `none` (the function returns `Option Bool`); `Version::from` returning
  `Option` is kept as is, `none` being the single `NoNumericSegment` failure.
-/

/-- Embedding of `VersionPart<'a>` from `version_part.rs`: one dot-delimited
part of a version string, either a parsed signed number or raw text. -/
inductive VersionPart where
  | Number (n : Int)
  | Text (t : String)
deriving DecidableEq, Repr

/-- Embedding of `CompOp` from `comp_op.rs`: the six comparison operators. -/
inductive CompOp where
  | EQ
  | NE
  | LT
  | LE
  | GE
  | GT
deriving DecidableEq, Repr

namespace CompOp

/-- Embedding of `CompOp::invert` (`comp_op.rs` lines 61-70). -/
def invert : CompOp → CompOp
  | CompOp.EQ => CompOp.NE
  | CompOp.NE => CompOp.EQ
  | CompOp.LT => CompOp.GE
  | CompOp.LE => CompOp.GT
  | CompOp.GE => CompOp.LT
  | CompOp.GT => CompOp.LE

/-- Embedding of `CompOp::opposite` (`comp_op.rs` lines 108-117). -/
def opposite : CompOp → CompOp
  | CompOp.EQ => CompOp.NE
  | CompOp.NE => CompOp.EQ
  | CompOp.LT => CompOp.GT
  | CompOp.LE => CompOp.GE
  | CompOp.GE => CompOp.LE
  | CompOp.GT => CompOp.LT

/-- Embedding of `CompOp::flip` (`comp_op.rs` lines 155-163): LT↔GT, LE↔GE,
everything else unchanged. -/
def flip : CompOp → CompOp
  | CompOp.LT => CompOp.GT
  | CompOp.LE => CompOp.GE
  | CompOp.GE => CompOp.LE
  | CompOp.GT => CompOp.LT
  | op => op

/-- Embedding of `CompOp::sign` (`comp_op.rs` lines 184-193). -/
def sign : CompOp → String
  | CompOp.EQ => "=="
  | CompOp.NE => "!="
  | CompOp.LT => "<"
  | CompOp.LE => "<="
  | CompOp.GE => ">="
  | CompOp.GT => ">"

/-- Embedding of `CompOp::factor` (`comp_op.rs` lines 214-220). -/
def factor : CompOp → Int
  | CompOp.EQ | CompOp.NE => 0
  | CompOp.LT | CompOp.LE => -1
  | CompOp.GT | CompOp.GE => 1

end CompOp

/-- Base-10 value of a digit list, most significant digit first.  This is the
accumulator loop inside Rust's `from_str_radix`. -/
def digitsVal (ds : List Char) : Nat :=
  ds.foldl (fun acc c => acc * 10 + (c.toNat - '0'.toNat)) 0

/-- Embedding of Rust's `str::parse::<i32>()` as used in
`Version::split_version_str` (`version.rs` line 64): an optional leading `+`
or `-` sign followed by one or more ASCII digits consuming the whole token,
with the value required to fit in `i32` (`-2^31 ≤ v ≤ 2^31 - 1`); anything
else is a parse failure (`none`). -/
def parseI32 (s : List Char) : Option Int :=
  match s with
  | [] => none
  | c :: rest =>
    let (neg, ds) :=
      if c = '-' then (true, rest)
      else if c = '+' then (false, rest)
      else (false, c :: rest)
    if ds.isEmpty then none
    else if ds.all Char.isDigit then
      let n := digitsVal ds
      if neg then
        if n ≤ 2 ^ 31 then some (-(n : Int)) else none
      else
        if n ≤ 2 ^ 31 - 1 then some (n : Int) else none
    else none

/-- The classification step of `Version::split_version_str` (`version.rs`
lines 62-71): a token becomes `Number` if it parses as an `i32`, and `Text`
otherwise. -/
def classify_part (part : List Char) : VersionPart :=
  match parseI32 part with
  | some number => VersionPart.Number number
  | none => VersionPart.Text (String.mk part)

/-- Accumulator loop embedding Rust's `str::split('.')`: splits a character
list at every `'.'`, keeping empty pieces (so `""` yields `[""]` and
`"1..2"` yields `["1", "", "2"]`). -/
def splitOnDotAux : List Char → List Char → List (List Char)
  | [], acc => [acc.reverse]
  | c :: rest, acc =>
    if c = '.' then acc.reverse :: splitOnDotAux rest []
    else splitOnDotAux rest (c :: acc)

/-- Embedding of `version.split('.')` (`version.rs` line 50). -/
def splitOnDot (s : String) : List (List Char) :=
  splitOnDotAux s.toList []

/-- The non-empty tokens of a version string: split on `'.'` and discard
empty tokens (`version.rs` lines 57-61). -/
def versionTokens (s : String) : List (List Char) :=
  (splitOnDot s).filter (fun part => !part.isEmpty)

/-- Whether a part is a `Number`; the `has_number` flag of
`Version::split_version_str` is set exactly when some part satisfies this. -/
def isNumberPart : VersionPart → Bool
  | VersionPart.Number _ => true
  | VersionPart.Text _ => false

/-- Embedding of `Version::split_version_str` (`version.rs` lines 48-81):
split on `'.'`, drop empty tokens, classify each token, and fail (`none`,
the `NoNumericSegment` failure) when the non-empty part list contains no
`Number`. -/
def split_version_str (version : String) : Option (List VersionPart) :=
  let parts := (versionTokens version).map classify_part
  let has_number := parts.any isNumberPart
  if !has_number && !parts.isEmpty then none else some parts

/-- Embedding of the `Version<'a>` struct (`version.rs` lines 8-11): the raw
string together with its parsed parts. -/
structure Version where
  version : String
  parts : List VersionPart
deriving DecidableEq, Repr

/-- Embedding of `Version::from` (`version.rs` lines 30-44). -/
def Version.from' (version : String) : Option Version :=
  match split_version_str version with
  | none => none
  | some parts => some { version := version, parts := parts }

/-- The inner loop of `Version::compare_iter` (`version.rs` lines 248-261):
advance the other iterator to its next `Number` part, returning that number
and the unconsumed remainder, or `none` when the iterator is exhausted. -/
def nextNumber : List VersionPart → Option (Int × List VersionPart)
  | [] => none
  | VersionPart.Number n :: rest => some (n, rest)
  | VersionPart.Text _ :: rest => nextNumber rest

/-- `Version::compare_iter` specialised to an exhausted other iterator: every
`Text` part is skipped, a zero `Number` is skipped (`version.rs` lines
263-272), a nonzero `Number` yields `Gt` (line 275), and exhaustion yields
`Eq` (line 312).  `compare_iter_nil_right` below shows this is exactly
`compare_iter b []`. -/
def compare_tail : List VersionPart → CompOp
  | [] => CompOp.EQ
  | VersionPart.Number num :: rest =>
    if num = 0 then compare_tail rest else CompOp.GT
  | VersionPart.Text _ :: rest => compare_tail rest

/-- Embedding of `Version::compare_iter` (`version.rs` lines 233-314): walk
the primary list, skipping `Text` parts; for each primary `Number`, advance
the other list to its next `Number`; if the other side is exhausted, a zero
continues and a nonzero returns `Gt`; otherwise compare the two numbers and
continue on a tie.  When the primary list is exhausted, a non-empty other
list is compared with the roles swapped and the result flipped (line 309,
here via `compare_tail`, see `compare_iter_swap`), and two exhausted lists
are equal. -/
def compare_iter : List VersionPart → List VersionPart → CompOp
  | [], other =>
    match other with
    | [] => CompOp.EQ
    | _ :: _ => (compare_tail other).flip
  | VersionPart.Text _ :: rest, other => compare_iter rest other
  | VersionPart.Number num :: rest, other =>
    match nextNumber other with
    | none => if num = 0 then compare_iter rest [] else CompOp.GT
    | some (other_num, rest_other) =>
      if num < other_num then CompOp.LT
      else if num > other_num then CompOp.GT
      else compare_iter rest rest_other

/-- Embedding of `Version::compare` (`version.rs` lines 178-184). -/
def Version.compare (self other : Version) : CompOp :=
  compare_iter self.parts other.parts

/-- The inner operator match of `Version::compare_to` for an `Eq` result
(`version.rs` lines 206-210). -/
def matchesEqResult : CompOp → Bool
  | CompOp.EQ | CompOp.LE | CompOp.GE => true
  | _ => false

/-- The inner operator match of `Version::compare_to` for an `Lt` result
(`version.rs` lines 211-215). -/
def matchesLtResult : CompOp → Bool
  | CompOp.NE | CompOp.LT | CompOp.LE => true
  | _ => false

/-- The inner operator match of `Version::compare_to` for a `Gt` result
(`version.rs` lines 216-220). -/
def matchesGtResult : CompOp → Bool
  | CompOp.NE | CompOp.GT | CompOp.GE => true
  | _ => false

/-- Embedding of `Version::compare_to` (`version.rs` lines 200-225).  The
unreachable `panic!()` fall-through branch is embedded as `none`. -/
def Version.compare_to (self other : Version) (operator : CompOp) : Option Bool :=
  match self.compare other with
  | CompOp.EQ => some (matchesEqResult operator)
  | CompOp.LT => some (matchesLtResult operator)
  | CompOp.GT => some (matchesGtResult operator)
  | _ => none

/-- Parse both strings and compare the resulting versions; used to state
concrete comparison facts. -/
def compareStr (a b : String) : Option CompOp :=
  (Version.from' a).bind fun va =>
    (Version.from' b).bind fun vb => some (va.compare vb)

/-- Parse both strings and run `compare_to`; used to state concrete
relational-check facts. -/
def compareToStr (a b : String) (operator : CompOp) : Option Bool :=
  (Version.from' a).bind fun va =>
    (Version.from' b).bind fun vb => va.compare_to vb operator

/-- The `Number` values of a part list, in order; `Text` parts contribute
nothing.  `compare_iter` is a function of the two sides' number lists
(`compare_iter_numbers`). -/
def numbersOf : List VersionPart → List Int
  | [] => []
  | VersionPart.Number n :: rest => n :: numbersOf rest
  | VersionPart.Text _ :: rest => numbersOf rest

/-- `compare_tail` on the number list alone. -/
def cmpTail : List Int → CompOp
  | [] => CompOp.EQ
  | n :: rest => if n = 0 then cmpTail rest else CompOp.GT

/-- `compare_iter` on the number lists alone. -/
def cmpNums : List Int → List Int → CompOp
  | [], [] => CompOp.EQ
  | [], m :: bs => (cmpTail (m :: bs)).flip
  | n :: rest, [] => if n = 0 then cmpNums rest [] else CompOp.GT
  | n :: rest, m :: bs =>
    if n < m then CompOp.LT
    else if n > m then CompOp.GT
    else cmpNums rest bs

theorem flip_flip (op : CompOp) : op.flip.flip = op := by
  cases op <;> rfl

theorem compare_iter_nil_right (b : List VersionPart) :
    compare_iter b [] = compare_tail b := by
  induction b with
  | nil => rfl
  | cons p rest ih =>
    cases p with
    | Number n => simp [compare_iter, compare_tail, nextNumber, ih]
    | Text t => simp [compare_iter, compare_tail, ih]

/-- The swap-and-flip recursion of `version.rs` line 309 holds of the
embedding: comparing an empty primary against a non-empty other list is the
flipped comparison with the roles swapped. -/
theorem compare_iter_swap (b : List VersionPart) (h : b ≠ []) :
    compare_iter [] b = (compare_iter b []).flip := by
  cases b with
  | nil => cases h rfl
  | cons p rest => simp [compare_iter, compare_iter_nil_right]

theorem compare_iter_swap_witness :
    ([VersionPart.Number 1] : List VersionPart) ≠ [] ∧
      compare_iter [] [VersionPart.Number 1] =
        (compare_iter [VersionPart.Number 1] []).flip :=
  ⟨by decide, compare_iter_swap [VersionPart.Number 1] (by decide)⟩

theorem numbersOf_eq_nil_of_nextNumber (b : List VersionPart)
    (h : nextNumber b = none) : numbersOf b = [] := by
  induction b with
  | nil => rfl
  | cons p rest ih =>
    cases p with
    | Number n => simp [nextNumber] at h
    | Text t =>
      simp only [nextNumber] at h
      simp [numbersOf, ih h]

theorem numbersOf_eq_of_nextNumber (b : List VersionPart) (n : Int)
    (rest : List VersionPart) (h : nextNumber b = some (n, rest)) :
    numbersOf b = n :: numbersOf rest := by
  induction b with
  | nil => simp [nextNumber] at h
  | cons p bs ih =>
    cases p with
    | Number m =>
      simp only [nextNumber, Option.some.injEq, Prod.mk.injEq] at h
      obtain ⟨h1, h2⟩ := h
      simp [numbersOf, h1, h2]
    | Text t =>
      simp only [nextNumber] at h
      simp [numbersOf, ih h]

theorem compare_tail_eq (b : List VersionPart) :
    compare_tail b = cmpTail (numbersOf b) := by
  induction b with
  | nil => rfl
  | cons p rest ih => cases p <;> simp [compare_tail, numbersOf, cmpTail, ih]

/-- `compare_iter` only depends on the `Number` values of its two arguments:
`Text` parts are invisible to the comparison. -/
theorem compare_iter_numbers (a b : List VersionPart) :
    compare_iter a b = cmpNums (numbersOf a) (numbersOf b) := by
  induction a generalizing b with
  | nil =>
    cases b with
    | nil => rfl
    | cons p rest =>
      rw [show compare_iter [] (p :: rest) = (compare_tail (p :: rest)).flip
            from rfl,
          compare_tail_eq]
      cases hn : numbersOf (p :: rest) with
      | nil => simp [cmpNums, cmpTail, CompOp.flip]
      | cons m ms => simp [cmpNums]
  | cons p rest ih =>
    cases p with
    | Text t => simp [compare_iter, numbersOf, ih]
    | Number num =>
      cases hn : nextNumber b with
      | none =>
        have hb : numbersOf b = [] := numbersOf_eq_nil_of_nextNumber b hn
        simp [compare_iter, hn, hb, numbersOf, cmpNums, ih]
      | some pr =>
        obtain ⟨m, rest_other⟩ := pr
        have hb := numbersOf_eq_of_nextNumber b m rest_other hn
        simp [compare_iter, hn, hb, numbersOf, cmpNums, ih]

theorem cmpNums_nil_right (a : List Int) : cmpNums a [] = cmpTail a := by
  induction a with
  | nil => rfl
  | cons n rest ih => simp [cmpNums, cmpTail, ih]

theorem cmpNums_nil_left (b : List Int) : cmpNums [] b = (cmpTail b).flip := by
  cases b <;> rfl

theorem cmpTail_eq_or_gt (l : List Int) :
    cmpTail l = CompOp.EQ ∨ cmpTail l = CompOp.GT := by
  induction l with
  | nil => exact Or.inl rfl
  | cons n rest ih =>
    by_cases h : n = 0
    · simpa [cmpTail, h] using ih
    · simp [cmpTail, h]

theorem cmpNums_antisymm (a b : List Int) : cmpNums a b = (cmpNums b a).flip := by
  induction a generalizing b with
  | nil =>
    cases b with
    | nil => rfl
    | cons m bs => simp [cmpNums, cmpTail, cmpNums_nil_right]
  | cons n rest ih =>
    cases b with
    | nil => simp [cmpNums, cmpTail, cmpNums_nil_right, flip_flip]
    | cons m bs =>
      rcases lt_trichotomy n m with h | h | h
      · simp [cmpNums, h, lt_asymm h, CompOp.flip]
      · subst h
        simp [cmpNums, lt_irrefl, ih]
      · simp [cmpNums, h, lt_asymm h, CompOp.flip]

theorem cmpNums_self (l : List Int) : cmpNums l l = CompOp.EQ := by
  induction l with
  | nil => rfl
  | cons n rest ih => simp [cmpNums, lt_irrefl, ih]

theorem cmpNums_mem (a b : List Int) :
    cmpNums a b = CompOp.LT ∨ cmpNums a b = CompOp.EQ ∨
      cmpNums a b = CompOp.GT := by
  induction a generalizing b with
  | nil =>
    cases b with
    | nil => simp [cmpNums]
    | cons m bs =>
      rcases cmpTail_eq_or_gt (m :: bs) with h | h <;>
        simp [cmpNums, h, CompOp.flip]
  | cons n rest ih =>
    cases b with
    | nil =>
      by_cases h : n = 0
      · simpa [cmpNums, h] using ih []
      · simp [cmpNums, h]
    | cons m bs =>
      rcases lt_trichotomy n m with h | h | h
      · simp [cmpNums, h]
      · subst h
        simpa [cmpNums, lt_irrefl] using ih bs
      · simp [cmpNums, lt_asymm h, h]

/-- `Version::compare` only ever produces one of the three raw outcomes. -/
theorem compare_mem (a b : Version) :
    a.compare b = CompOp.LT ∨ a.compare b = CompOp.EQ ∨
      a.compare b = CompOp.GT := by
  have h := cmpNums_mem (numbersOf a.parts) (numbersOf b.parts)
  simpa [Version.compare, compare_iter_numbers] using h

theorem cmpTail_eq_gt (l : List Int) (h : ∃ n ∈ l, n ≠ 0) :
    cmpTail l = CompOp.GT := by
  induction l with
  | nil => simp at h
  | cons n rest ih =>
    by_cases hn : n = 0
    · subst hn
      rw [show cmpTail (0 :: rest) = cmpTail rest by simp [cmpTail]]
      obtain ⟨m, hm, hm0⟩ := h
      rcases List.mem_cons.mp hm with he | ht
      · exact absurd he hm0
      · exact ih ⟨m, ht, hm0⟩
    · simp [cmpTail, hn]

theorem cmpTail_eq_eq (l : List Int) (h : ∀ n ∈ l, n = 0) :
    cmpTail l = CompOp.EQ := by
  induction l with
  | nil => rfl
  | cons n rest ih =>
    have hn := h n (List.mem_cons_self n rest)
    rw [show cmpTail (n :: rest) = cmpTail rest by simp [cmpTail, hn]]
    exact ih fun m hm => h m (List.mem_cons_of_mem n hm)

theorem isNumberPart_classify (t : List Char) :
    isNumberPart (classify_part t) = (parseI32 t).isSome := by
  unfold classify_part
  cases parseI32 t <;> rfl

/-- The token shape the spec (section 4.2) claims is classified as `Number`,
stated from the spec words: an optional leading minus followed by digits
that consume the entire token, whose value fits the `i32` width. -/
def specNumberToken (t : List Char) : Bool :=
  match t with
  | [] => false
  | c :: rest =>
    let ds := if c = '-' then rest else c :: rest
    !ds.isEmpty && ds.all Char.isDigit &&
      (if c = '-' then decide (digitsVal ds ≤ 2 ^ 31)
       else decide (digitsVal ds ≤ 2 ^ 31 - 1))

/-- The amended token shape: an optional leading minus or plus followed by
digits that consume the entire token, whose value fits the `i32` width. -/
def specNumberTokenAmended (t : List Char) : Bool :=
  match t with
  | [] => false
  | c :: rest =>
    let ds := if c = '-' then rest else if c = '+' then rest else c :: rest
    !ds.isEmpty && ds.all Char.isDigit &&
      (if c = '-' then decide (digitsVal ds ≤ 2 ^ 31)
       else decide (digitsVal ds ≤ 2 ^ 31 - 1))

/-- The integer value denoted by a token of the shape accepted by
`specNumberTokenAmended`. -/
def specNumberValue (t : List Char) : Int :=
  match t with
  | [] => 0
  | c :: rest =>
    let ds := if c = '-' then rest else if c = '+' then rest else c :: rest
    if c = '-' then -(digitsVal ds : Int) else (digitsVal ds : Int)

/-- Claim C1: in `compare`, when the other side is exhausted and the primary
side yields a `Number`, a value of 0 is treated as absent (the primary
cursor keeps advancing over the remaining parts) and any nonzero value makes
the result `Gt`; consequently `"1.2.0"` compares `Eq` to `"1.2"` and
`"1.2.1"` compares `Gt` to `"1.2"`. -/
theorem c1_trailing_zero :
    (∀ (num : Int) (rest b : List VersionPart), nextNumber b = none →
      compare_iter (VersionPart.Number num :: rest) b =
        if num = 0 then compare_iter rest [] else CompOp.GT)
    ∧ compareStr "1.2.0" "1.2" = some CompOp.EQ
    ∧ compareStr "1.2.1" "1.2" = some CompOp.GT := by
  refine ⟨?_, by decide, by decide⟩
  intro num rest b h
  simp [compare_iter, h]

theorem c1_trailing_zero_witness :
    nextNumber [] = none ∧
      compare_iter [VersionPart.Number 5] [] = CompOp.GT := by
  refine ⟨rfl, ?_⟩
  have h := c1_trailing_zero.1 5 [] [] rfl
  rw [if_neg (by norm_num)] at h
  exact h

/-- Claim C2: `Text` parts are skipped on both sides by `compare` and never
influence its result: whenever two versions have the same `Number` values in
the same order, they compare `Eq`; in particular `"1.a.2"` and `"1.b.2"`
compare `Eq`. -/
theorem c2_text_transparent :
    (∀ a b : Version, numbersOf a.parts = numbersOf b.parts →
      a.compare b = CompOp.EQ)
    ∧ compareStr "1.a.2" "1.b.2" = some CompOp.EQ := by
  refine ⟨?_, by decide⟩
  intro a b h
  show compare_iter a.parts b.parts = CompOp.EQ
  rw [compare_iter_numbers, h]
  exact cmpNums_self _

theorem c2_text_transparent_witness :
    numbersOf [VersionPart.Number 1, VersionPart.Text "x"] =
        numbersOf [VersionPart.Number 1] ∧
      Version.compare ⟨"1.x", [VersionPart.Number 1, VersionPart.Text "x"]⟩
          ⟨"1", [VersionPart.Number 1]⟩ = CompOp.EQ :=
  ⟨rfl,
   c2_text_transparent.1 ⟨"1.x", [VersionPart.Number 1, VersionPart.Text "x"]⟩
     ⟨"1", [VersionPart.Number 1]⟩ rfl⟩

/-- Claim C3: `compare` always returns one of `Lt`, `Eq`, `Gt` (never `Ne`,
`Le`, or `Ge`); hence the fall-through `panic!()` branch of `compare_to`
(embedded as `none`) is unreachable. -/
theorem c3_compare_total :
    ∀ a b : Version,
      (a.compare b = CompOp.LT ∨ a.compare b = CompOp.EQ ∨
        a.compare b = CompOp.GT)
      ∧ ∀ op : CompOp, (a.compare_to b op).isSome = true := by
  intro a b
  refine ⟨compare_mem a b, ?_⟩
  intro op
  rcases compare_mem a b with h | h | h <;> simp [Version.compare_to, h]

/-- Claim C4: `compare` is antisymmetric: `compare a b = Gt` if and only if
`compare b a = Lt`, and `compare a b = Eq` if and only if
`compare b a = Eq`. -/
theorem c4_antisymm :
    ∀ a b : Version,
      (a.compare b = CompOp.GT ↔ b.compare a = CompOp.LT)
      ∧ (a.compare b = CompOp.EQ ↔ b.compare a = CompOp.EQ) := by
  intro a b
  have h : a.compare b = (b.compare a).flip := by
    show compare_iter a.parts b.parts = (compare_iter b.parts a.parts).flip
    rw [compare_iter_numbers, compare_iter_numbers, cmpNums_antisymm]
  rw [h]
  rcases compare_mem b a with hb | hb | hb <;> rw [hb] <;>
    simp [CompOp.flip]

/-- Claim C5: `compare_to` follows the fixed compatibility table:
`compare_to a b op` is `some true` exactly when the raw comparison is `Eq`
and `op` is one of `Eq`/`Le`/`Ge`, or the raw comparison is `Lt` and `op` is
one of `Ne`/`Lt`/`Le`, or the raw comparison is `Gt` and `op` is one of
`Ne`/`Gt`/`Ge`. -/
theorem c5_matches_table :
    ∀ (a b : Version) (op : CompOp),
      a.compare_to b op = some true ↔
        ((a.compare b = CompOp.EQ ∧
            (op = CompOp.EQ ∨ op = CompOp.LE ∨ op = CompOp.GE)) ∨
         (a.compare b = CompOp.LT ∧
            (op = CompOp.NE ∨ op = CompOp.LT ∨ op = CompOp.LE)) ∨
         (a.compare b = CompOp.GT ∧
            (op = CompOp.NE ∨ op = CompOp.GT ∨ op = CompOp.GE))) := by
  intro a b op
  rcases compare_mem a b with h | h | h <;>
    cases op <;>
      simp [Version.compare_to, matchesEqResult, matchesLtResult,
        matchesGtResult, h]

/-- Claim C9: `compare` is reflexive: every version compares `Eq` to
itself. -/
theorem c9_reflexive : ∀ a : Version, a.compare a = CompOp.EQ := by
  intro a
  show compare_iter a.parts a.parts = CompOp.EQ
  rw [compare_iter_numbers]
  exact cmpNums_self _

/-- Claim C6: `Version::from` fails (the `NoNumericSegment` failure, embedded
as `none`) exactly when the input, split on `'.'` with empty tokens
discarded, yields a non-empty token list in which no token parses as an
integer; in particular `"abc"` fails and `""` succeeds with zero parts. -/
theorem c6_parse_failure :
    (∀ s : String,
      Version.from' s = none ↔
        (versionTokens s ≠ [] ∧ ∀ t ∈ versionTokens s, parseI32 t = none))
    ∧ Version.from' "abc" = none
    ∧ Version.from' "" = some ⟨"", []⟩ := by
  refine ⟨?_, by decide, by decide⟩
  intro s
  have hfrom : Version.from' s = none ↔ split_version_str s = none := by
    unfold Version.from'
    cases split_version_str s <;> simp
  rw [hfrom]
  simp only [split_version_str]
  split
  next hcond =>
    rw [Bool.and_eq_true, Bool.not_eq_true', Bool.not_eq_true'] at hcond
    obtain ⟨hany, hemp⟩ := hcond
    rw [List.any_eq_false] at hany
    refine iff_of_true rfl ⟨?_, ?_⟩
    · intro hnil
      rw [hnil] at hemp
      simp at hemp
    · intro t ht
      have h1 := hany (classify_part t) (List.mem_map_of_mem classify_part ht)
      rw [isNumberPart_classify] at h1
      simpa using h1
  next hcond =>
    refine iff_of_false (by simp) ?_
    rintro ⟨hnil, hnone⟩
    rw [Bool.and_eq_true, Bool.not_eq_true', Bool.not_eq_true'] at hcond
    push_neg at hcond
    by_cases hany : ((versionTokens s).map classify_part).any isNumberPart = false
    · have hemp := hcond hany
      have hmapnil : List.map classify_part (versionTokens s) = [] := by
        cases hmap : (List.map classify_part (versionTokens s)).isEmpty
        · exact absurd hmap hemp
        · simpa using hmap
      rw [List.map_eq_nil_iff] at hmapnil
      exact hnil hmapnil
    · simp only [Bool.not_eq_false] at hany
      rw [List.any_eq_true] at hany
      obtain ⟨x, hx, hnum⟩ := hany
      obtain ⟨t, ht, rfl⟩ := List.mem_map.mp hx
      rw [isNumberPart_classify] at hnum
      rw [hnone t ht] at hnum
      simp at hnum

/-- Claim C7 (counterexample): the token `"+1"` does not have the shape the
claim allows for `Number` classification (optional leading minus followed by
digits), yet the code classifies it as `Number 1`, not `Text "+1"`. -/
theorem c7_counterexample :
    classify_part ['+', '1'] = VersionPart.Number 1 ∧
      specNumberToken ['+', '1'] = false := by decide

/-- Claim C7 (amended): a non-empty token is classified as `Number` exactly
when it consists of an optional leading minus or plus sign followed by
digits that consume the entire token and whose value fits the `i32` width,
in which case the value is the denoted integer; any other token is
classified as `Text` with the token unchanged. -/
theorem c7_classification (t : List Char) (h : t ≠ []) :
    classify_part t =
      if specNumberTokenAmended t then VersionPart.Number (specNumberValue t)
      else VersionPart.Text (String.mk t) := by
  rcases t with _ | ⟨c, rest⟩
  · cases h rfl
  by_cases hm : c = '-'
  · subst hm
    by_cases he : rest.isEmpty <;> by_cases hd : rest.all Char.isDigit <;>
      by_cases hb : digitsVal rest ≤ 2147483648 <;>
        simp [classify_part, parseI32, specNumberTokenAmended, specNumberValue,
          he, hd, hb]
  · by_cases hp : c = '+'
    · subst hp
      by_cases he : rest.isEmpty <;> by_cases hd : rest.all Char.isDigit <;>
        by_cases hb : digitsVal rest ≤ 2147483647 <;>
          simp [classify_part, parseI32, specNumberTokenAmended,
            specNumberValue, he, hd, hb,
            show ('+' : Char) ≠ '-' from by decide]
    · by_cases hd : (c :: rest).all Char.isDigit <;>
        by_cases hb : digitsVal (c :: rest) ≤ 2147483647 <;>
          simp [classify_part, parseI32, specNumberTokenAmended,
            specNumberValue, hm, hp, hd, hb]

theorem c7_classification_witness :
    (['4', '2'] : List Char) ≠ [] ∧
      classify_part ['4', '2'] =
        (if specNumberTokenAmended ['4', '2'] then
          VersionPart.Number (specNumberValue ['4', '2'])
        else VersionPart.Text (String.mk ['4', '2'])) :=
  ⟨by decide, c7_classification ['4', '2'] (by decide)⟩

/-- Claim C8: for all versions and all six operators, checking the inverted
operator yields the logical negation of checking the operator, except
possibly when the raw comparison is `Eq` and both the operator and its
inverse lie outside the `Eq`-compatible set; the documented exception case
`compare_to "1.2" "1.2.3" Ne = true` holds. -/
theorem c8_invert_negation :
    (∀ (a b : Version) (op : CompOp),
      ¬(a.compare b = CompOp.EQ ∧
          (op ≠ CompOp.EQ ∧ op ≠ CompOp.LE ∧ op ≠ CompOp.GE) ∧
          (op.invert ≠ CompOp.EQ ∧ op.invert ≠ CompOp.LE ∧
            op.invert ≠ CompOp.GE)) →
        a.compare_to b op.invert = (a.compare_to b op).map (fun r => !r))
    ∧ compareToStr "1.2" "1.2.3" CompOp.NE = some true := by
  refine ⟨?_, by decide⟩
  intro a b op _
  rcases compare_mem a b with h | h | h <;> cases op <;>
    simp [Version.compare_to, CompOp.invert, matchesEqResult, matchesLtResult,
      matchesGtResult, h]

theorem c8_invert_negation_witness :
    Version.compare_to ⟨"1", [VersionPart.Number 1]⟩
        ⟨"1", [VersionPart.Number 1]⟩ CompOp.EQ.invert =
      (Version.compare_to ⟨"1", [VersionPart.Number 1]⟩
        ⟨"1", [VersionPart.Number 1]⟩ CompOp.EQ).map (fun r => !r) :=
  c8_invert_negation.1 ⟨"1", [VersionPart.Number 1]⟩
    ⟨"1", [VersionPart.Number 1]⟩ CompOp.EQ (by decide)

/-- Claim C10 (counterexample): against the empty version, a version whose
first (and only) nonzero number is negative compares as the greater side:
`compare (parse "") (parse "-1")` is `Lt`, not `Gt` as claimed. -/
theorem c10_counterexample :
    compareStr "" "-1" = some CompOp.LT ∧
      compareStr "" "-1" ≠ some CompOp.GT := by decide

/-- Claim C10 (amended): `parse ""` succeeds with an empty part sequence, and
the resulting version compares `Eq` to any version all of whose numbers are
zero, `Lt` to any version containing a positive number, and also `Lt` (not
`Gt`) to one whose first nonzero number is negative. -/
theorem c10_empty_version :
    Version.from' "" = some ⟨"", []⟩
    ∧ (∀ va vb : Version, va.parts = [] →
        (∀ n ∈ numbersOf vb.parts, n = 0) → va.compare vb = CompOp.EQ)
    ∧ compareStr "" "0.0" = some CompOp.EQ
    ∧ (∀ va vb : Version, va.parts = [] →
        (∃ n ∈ numbersOf vb.parts, 0 < n) → va.compare vb = CompOp.LT)
    ∧ (∀ va vb : Version, va.parts = [] →
        (∃ pre n post, numbersOf vb.parts = pre ++ n :: post ∧
          (∀ m ∈ pre, m = 0) ∧ n < 0) →
        va.compare vb = CompOp.LT) := by
  refine ⟨by decide, ?_, by decide, ?_, ?_⟩
  · intro va vb hva hzero
    show compare_iter va.parts vb.parts = CompOp.EQ
    rw [compare_iter_numbers, hva]
    show cmpNums [] (numbersOf vb.parts) = CompOp.EQ
    rw [cmpNums_nil_left, cmpTail_eq_eq _ hzero]
    rfl
  · intro va vb hva hpos
    show compare_iter va.parts vb.parts = CompOp.LT
    rw [compare_iter_numbers, hva]
    show cmpNums [] (numbersOf vb.parts) = CompOp.LT
    obtain ⟨n, hn, hn0⟩ := hpos
    rw [cmpNums_nil_left, cmpTail_eq_gt _ ⟨n, hn, ne_of_gt hn0⟩]
    rfl
  · intro va vb hva hneg
    show compare_iter va.parts vb.parts = CompOp.LT
    rw [compare_iter_numbers, hva]
    show cmpNums [] (numbersOf vb.parts) = CompOp.LT
    obtain ⟨pre, n, post, heq, _, hn0⟩ := hneg
    have hn : n ∈ numbersOf vb.parts := by
      rw [heq]
      exact List.mem_append_right pre (List.mem_cons_self n post)
    rw [cmpNums_nil_left, cmpTail_eq_gt _ ⟨n, hn, ne_of_lt hn0⟩]
    rfl

theorem c10_empty_version_witness :
    Version.compare ⟨"", []⟩ ⟨"0", [VersionPart.Number 0]⟩ = CompOp.EQ ∧
    Version.compare ⟨"", []⟩ ⟨"1", [VersionPart.Number 1]⟩ = CompOp.LT ∧
    Version.compare ⟨"", []⟩ ⟨"-1", [VersionPart.Number (-1)]⟩ = CompOp.LT :=
  ⟨c10_empty_version.2.1 ⟨"", []⟩ ⟨"0", [VersionPart.Number 0]⟩ rfl
      (by decide),
   c10_empty_version.2.2.2.1 ⟨"", []⟩ ⟨"1", [VersionPart.Number 1]⟩ rfl
      ⟨1, by decide, by decide⟩,
   c10_empty_version.2.2.2.2 ⟨"", []⟩ ⟨"-1", [VersionPart.Number (-1)]⟩ rfl
      ⟨[], -1, [], by decide, fun m hm => absurd hm (List.not_mem_nil m),
        by decide⟩⟩

